import Mathlib

/-!
Verification of the rename planner in `src/renameTools/rename.py`.

The Python module is embedded shallowly:

* `re.Match` objects are modelled by `ReMatch`, recording only what the
  program reads from them: the first capture group (`group1 = none` models a
  match whose pattern has no group 1, in which case `.group(1)` raises
  `IndexError`).
* The regex engine `re.search` is an oracle `ReSearch : String → String →
  Option ReMatch`, a parameter of every function that searches.
* The filesystem subtree below the processed directory is a value of
  `List Entry`; `os.listdir` order is the list order, and `os.path.join` on
  component lists is `++`.
* Python exceptions propagate as `Option`: a `none` result of
  `generate_new_filename`, `_process_file` or `collectAux` models an
  uncaught `IndexError`.
* The mutable set `existing_new_filenames` is modelled by a `List String`
  with membership semantics; `set.add` appends, `set.update` appends the
  other list.
-/

/-- Model of a `re.Match` object as used by the program: only `.group(1)` is
ever read. `group1 = none` models a match produced by a pattern with no
capture group, where `.group(1)` raises `IndexError`. -/
structure ReMatch where
  group1 : Option String
deriving DecidableEq

/-- Oracle for `re.search pattern filename`: `none` means no match. -/
def ReSearch := String → String → Option ReMatch

/-- One entry of `exam_type_rules` / `file_type_rules`: a dict
`{"pattern": ..., "type": ...}`. -/
structure Rule where
  pattern : String
  type : String
deriving DecidableEq

/-- The configuration dictionary, with the keys the program reads via
`config.get`. A missing key is `none` / `[]`, matching `dict.get` defaults. -/
structure Config where
  year_regex : Option String := none
  month_regex : Option String := none
  exam_type_rules : List Rule := []
  file_type_rules : List Rule := []

/-- Outcome of opening and parsing `config.json` in `load_config`. -/
inductive ConfigSource where
  | missing
  | malformed
  | valid (c : Config)

/-- Embedding of `load_config` (rename.py lines 10-20): `FileNotFoundError`
and `json.JSONDecodeError` are both caught and an empty dict is returned, so
every `config.get` falls back to its default. -/
def load_config : ConfigSource → Config
  | .missing => {}
  | .malformed => {}
  | .valid c => c

/-- The `for rule in rules: if re.search(...): ...; break` loops of
`extract_file_info`: label of the first rule whose pattern matches, else the
sentinel `"未知"`. -/
def scanRules (search : ReSearch) (filename : String) : List Rule → String
  | [] => "未知"
  | r :: rest =>
    if (search r.pattern filename).isSome then r.type
    else scanRules search filename rest

/-- Embedding of `extract_file_info` (rename.py lines 22-47). The guards
`if year_regex:` / `if month_regex:` are Python truthiness tests, false for
a missing key and for the empty string. -/
def extract_file_info (search : ReSearch) (filename : String) (config : Config) :
    Option ReMatch × Option ReMatch × String × String :=
  let year_match := match config.year_regex with
    | none => none
    | some p => if p = "" then none else search p filename
  let month_match := match config.month_regex with
    | none => none
    | some p => if p = "" then none else search p filename
  (year_match, month_match,
   scanRules search filename config.exam_type_rules,
   scanRules search filename config.file_type_rules)

/-- Index of the last `'.'` in a character list, if any. -/
def lastDotIdx : List Char → Option Nat
  | [] => none
  | c :: rest =>
    match lastDotIdx rest with
    | some i => some (i + 1)
    | none => if c = '.' then some 0 else none

/-- Embedding of `os.path.splitext` on a bare filename (no path separator):
the extension starts at the last dot, unless every character before that dot
is itself a dot (so `".bashrc"` and `"..."` have no extension). -/
def splitext (filename : String) : String × String :=
  match lastDotIdx filename.data with
  | none => (filename, "")
  | some i =>
    if (filename.data.take i).all (· = '.') then (filename, "")
    else (String.mk (filename.data.take i), String.mk (filename.data.drop i))

/-- Embedding of `str.zfill`: left-pad with `'0'` to the given width, with a
leading `'+'`/`'-'` kept in front of the padding. -/
def zfill (s : String) (width : Nat) : String :=
  if width ≤ s.length then s
  else
    let pad := String.mk (List.replicate (width - s.length) '0')
    match s.data with
    | c :: rest =>
      if c = '+' || c = '-' then String.mk (c :: (pad.data ++ rest))
      else pad ++ s
    | [] => pad

/-- Embedding of `generate_new_filename` (rename.py lines 49-63). A `none`
result models the `IndexError` raised by `.group(1)` when the matching
pattern has no capture group. -/
def generate_new_filename (filename : String) (year_match month_match : Option ReMatch)
    (exam_type file_type : String) : Option String :=
  let file_extension := (splitext filename).2
  match year_match with
  | some ym =>
    match ym.group1 with
    | none => none
    | some year =>
      match month_match with
      | some mm =>
        match mm.group1 with
        | none => none
        | some m =>
          some (year ++ "." ++ zfill m 2 ++ "." ++ exam_type ++ "." ++ file_type
            ++ file_extension)
      | none =>
        some (year ++ "." ++ exam_type ++ "." ++ file_type ++ file_extension)
  | none => some filename

/-- A directory entry as reported by `os.listdir` + `os.path.isdir`:
either a regular file or a subdirectory with its own listing. -/
inductive Entry where
  | file (name : String)
  | dir (name : String) (children : List Entry)

/-- Name of an entry, as `os.listdir` reports it. -/
def Entry.name : Entry → String
  | .file n => n
  | .dir n _ => n

/-- Whether an entry is a regular file (`not os.path.isdir`). -/
def Entry.isFile : Entry → Bool
  | .file _ => true
  | .dir _ _ => false

/-- A path, as the list of its components; `os.path.join d n = d ++ [n]`. -/
abbrev FsPath := List String

/-- `os.path.basename` of a component-list path. -/
def basename (p : FsPath) : String := p.getLastD ""

/-- A `(source full path, target full path)` pair. -/
abbrev RenamePair := FsPath × FsPath

/-- An `(original filename, candidate filename)` conflict record. -/
abbrev ConflictPair := String × String

/-- Embedding of `_process_file` (rename.py lines 65-77): directories yield
`(None, None)`; for a file, the candidate name is computed and tested
against `existing_new_filenames`, yielding either a rename pair or a
conflict pair. The outer `none` models an uncaught `IndexError` from
`generate_new_filename`. -/
def _process_file (search : ReSearch) (config : Config) (directory : FsPath)
    (entry : Entry) (existing_new_filenames : List String) :
    Option (Option RenamePair × Option ConflictPair) :=
  match entry with
  | .dir _ _ => some (none, none)
  | .file filename =>
    let info := extract_file_info search filename config
    match generate_new_filename filename info.1 info.2.1 info.2.2.1 info.2.2.2 with
    | none => none
    | some new_filename =>
      if new_filename ∈ existing_new_filenames then
        some (none, some (filename, new_filename))
      else
        some (some (directory ++ [filename], directory ++ [new_filename]), none)

/-- The loop body of `collect_rename_pairs` (rename.py lines 85-99) with the
three accumulators made explicit. Subdirectories recurse (when `recursive`)
with fresh empty accumulators, and the sub-results are appended / unioned
into the current accumulators; files go through `_process_file`. -/
def collectAux (search : ReSearch) (config : Config) (directory : FsPath)
    (entries : List Entry) (recursive : Bool)
    (rename_pairs : List RenamePair) (conflict_files : List ConflictPair)
    (existing_new_filenames : List String) :
    Option (List RenamePair × List ConflictPair × List String) :=
  match entries with
  | [] => some (rename_pairs, conflict_files, existing_new_filenames)
  | item :: rest =>
    match item with
    | .dir name children =>
      if recursive then
        match collectAux search config (directory ++ [name]) children true [] [] [] with
        | none => none
        | some (sub_rename_pairs, sub_conflict_files, sub_existing) =>
          collectAux search config directory rest recursive
            (rename_pairs ++ sub_rename_pairs)
            (conflict_files ++ sub_conflict_files)
            (existing_new_filenames ++ sub_existing)
      else
        collectAux search config directory rest recursive
          rename_pairs conflict_files existing_new_filenames
    | .file _ =>
      match _process_file search config directory item existing_new_filenames with
      | none => none
      | some (some rename_info, _) =>
        collectAux search config directory rest recursive
          (rename_pairs ++ [rename_info]) conflict_files
          (existing_new_filenames ++ [basename rename_info.2])
      | some (none, some conflict_info) =>
        collectAux search config directory rest recursive
          rename_pairs (conflict_files ++ [conflict_info]) existing_new_filenames
      | some (none, none) =>
        collectAux search config directory rest recursive
          rename_pairs conflict_files existing_new_filenames
  termination_by sizeOf entries
  decreasing_by all_goals (simp_wf <;> omega)

/-- Embedding of `collect_rename_pairs` (rename.py lines 79-101): run the
loop with fresh accumulators. -/
def collect_rename_pairs (search : ReSearch) (config : Config) (directory : FsPath)
    (entries : List Entry) (recursive : Bool) :
    Option (List RenamePair × List ConflictPair × List String) :=
  collectAux search config directory entries recursive [] [] []

/-- The candidate name of one file, as `_process_file` computes it:
`extract_file_info` followed by `generate_new_filename`. -/
def candidateName (search : ReSearch) (config : Config) (filename : String) :
    Option String :=
  let info := extract_file_info search filename config
  generate_new_filename filename info.1 info.2.1 info.2.2.1 info.2.2.2

/-- Well-formedness of a directory listing, as real filesystems guarantee:
sibling names are distinct, recursively. -/
def allWf : List Entry → Bool
  | [] => true
  | .file _ :: rest => allWf rest
  | .dir _ children :: rest =>
    (decide ((children.map Entry.name).Nodup) && allWf children) && allWf rest
  termination_by es => sizeOf es
  decreasing_by all_goals (simp_wf <;> omega)

/-- A listing is well-formed when its names are distinct and every
subdirectory's listing is well-formed. -/
def wfList (entries : List Entry) : Bool :=
  decide ((entries.map Entry.name).Nodup) && allWf entries

/-- The targets of a list of rename pairs. -/
def targets (rps : List RenamePair) : List FsPath := rps.map Prod.snd


/-! ## Basic lemmas about the planner step functions -/

theorem basename_append (d : FsPath) (n : String) : basename (d ++ [n]) = n := by
  induction d with
  | nil => rfl
  | cons a d ih =>
    simp [basename, List.getLastD]

theorem _process_file_eq_none (s : ReSearch) (c : Config) (d : FsPath) (f : String)
    (ex : List String) (h : candidateName s c f = none) :
    _process_file s c d (.file f) ex = none := by
  unfold _process_file
  unfold candidateName at h
  simp only [h]

theorem _process_file_conflict (s : ReSearch) (c : Config) (d : FsPath) (f : String)
    (ex : List String) (nf : String) (h : candidateName s c f = some nf)
    (hmem : nf ∈ ex) :
    _process_file s c d (.file f) ex = some (none, some (f, nf)) := by
  unfold _process_file
  unfold candidateName at h
  simp only [h, if_pos hmem]

theorem _process_file_rename (s : ReSearch) (c : Config) (d : FsPath) (f : String)
    (ex : List String) (nf : String) (h : candidateName s c f = some nf)
    (hmem : nf ∉ ex) :
    _process_file s c d (.file f) ex =
      some (some (d ++ [f], d ++ [nf]), none) := by
  unfold _process_file
  unfold candidateName at h
  simp only [h, if_neg hmem]

theorem collectAux_nil (s : ReSearch) (c : Config) (d : FsPath) (r : Bool)
    (rps : List RenamePair) (cfs : List ConflictPair) (ex : List String) :
    collectAux s c d [] r rps cfs ex = some (rps, cfs, ex) := by
  simp [collectAux]

theorem collectAux_cons_dir_rec (s : ReSearch) (c : Config) (d : FsPath) (nm : String)
    (ch rest : List Entry) (rps : List RenamePair) (cfs : List ConflictPair)
    (ex : List String) (srps : List RenamePair) (scfs : List ConflictPair)
    (sex : List String)
    (h : collectAux s c (d ++ [nm]) ch true [] [] [] = some (srps, scfs, sex)) :
    collectAux s c d (Entry.dir nm ch :: rest) true rps cfs ex =
      collectAux s c d rest true (rps ++ srps) (cfs ++ scfs) (ex ++ sex) := by
  rw [collectAux]
  simp [h]

theorem collectAux_cons_dir_nonrec (s : ReSearch) (c : Config) (d : FsPath) (nm : String)
    (ch rest : List Entry) (rps : List RenamePair) (cfs : List ConflictPair)
    (ex : List String) :
    collectAux s c d (Entry.dir nm ch :: rest) false rps cfs ex =
      collectAux s c d rest false rps cfs ex := by
  rw [collectAux]
  simp

theorem collectAux_cons_file_rename (s : ReSearch) (c : Config) (d : FsPath)
    (f : String) (rest : List Entry) (r : Bool) (rps : List RenamePair)
    (cfs : List ConflictPair) (ex : List String) (nf : String)
    (h : candidateName s c f = some nf) (hmem : nf ∉ ex) :
    collectAux s c d (Entry.file f :: rest) r rps cfs ex =
      collectAux s c d rest r (rps ++ [(d ++ [f], d ++ [nf])]) cfs (ex ++ [nf]) := by
  rw [collectAux]
  rw [_process_file_rename s c d f ex nf h hmem]
  simp [basename_append]

theorem collectAux_cons_file_conflict (s : ReSearch) (c : Config) (d : FsPath)
    (f : String) (rest : List Entry) (r : Bool) (rps : List RenamePair)
    (cfs : List ConflictPair) (ex : List String) (nf : String)
    (h : candidateName s c f = some nf) (hmem : nf ∈ ex) :
    collectAux s c d (Entry.file f :: rest) r rps cfs ex =
      collectAux s c d rest r rps (cfs ++ [(f, nf)]) ex := by
  rw [collectAux]
  rw [_process_file_conflict s c d f ex nf h hmem]

theorem collectAux_cons_file_none (s : ReSearch) (c : Config) (d : FsPath)
    (f : String) (rest : List Entry) (r : Bool) (rps : List RenamePair)
    (cfs : List ConflictPair) (ex : List String)
    (h : candidateName s c f = none) :
    collectAux s c d (Entry.file f :: rest) r rps cfs ex = none := by
  rw [collectAux]
  rw [_process_file_eq_none s c d f ex h]

theorem collectAux_cons_dir_rec_none (s : ReSearch) (c : Config) (d : FsPath)
    (nm : String) (ch rest : List Entry) (rps : List RenamePair)
    (cfs : List ConflictPair) (ex : List String)
    (h : collectAux s c (d ++ [nm]) ch true [] [] [] = none) :
    collectAux s c d (Entry.dir nm ch :: rest) true rps cfs ex = none := by
  rw [collectAux]
  simp [h]

/-- The `rename_pairs` and `conflict_files` accumulators are write-only:
running the loop from arbitrary accumulators is running it from empty ones
and prepending. -/
theorem collectAux_acc (s : ReSearch) (c : Config) :
    ∀ (n : Nat) (es : List Entry), sizeOf es = n → ∀ (d : FsPath) (r : Bool)
      (rps : List RenamePair) (cfs : List ConflictPair) (ex : List String),
      collectAux s c d es r rps cfs ex =
        Option.map (fun o => (rps ++ o.1, cfs ++ o.2.1, o.2.2))
          (collectAux s c d es r [] [] ex) := by
  intro n
  induction n using Nat.strong_induction_on with
  | _ n ih =>
    intro es hsz d r rps cfs ex
    match es with
    | [] => simp [collectAux_nil]
    | .file f :: rest =>
      have hlt : sizeOf rest < n := by
        subst hsz; simp
      cases hc : candidateName s c f with
      | none =>
        rw [collectAux_cons_file_none _ _ _ _ _ _ _ _ _ hc,
            collectAux_cons_file_none _ _ _ _ _ _ _ _ _ hc]
        rfl
      | some nf =>
        by_cases hmem : nf ∈ ex
        · rw [collectAux_cons_file_conflict _ _ _ _ _ _ _ _ _ _ hc hmem,
              collectAux_cons_file_conflict _ _ _ _ _ _ _ _ _ _ hc hmem]
          rw [ih _ hlt rest rfl d r rps (cfs ++ [(f, nf)]) ex,
              ih _ hlt rest rfl d r [] ([] ++ [(f, nf)]) ex]
          cases hF : collectAux s c d rest r [] [] ex <;> simp [hF]
        · rw [collectAux_cons_file_rename _ _ _ _ _ _ _ _ _ _ hc hmem,
              collectAux_cons_file_rename _ _ _ _ _ _ _ _ _ _ hc hmem]
          rw [ih _ hlt rest rfl d r (rps ++ [(d ++ [f], d ++ [nf])]) cfs (ex ++ [nf]),
              ih _ hlt rest rfl d r ([] ++ [(d ++ [f], d ++ [nf])]) [] (ex ++ [nf])]
          cases hF : collectAux s c d rest r [] [] (ex ++ [nf]) <;> simp [hF]
    | .dir nm ch :: rest =>
      have hlt : sizeOf rest < n := by
        subst hsz; simp
      cases r with
      | false =>
        rw [collectAux_cons_dir_nonrec, collectAux_cons_dir_nonrec]
        exact ih _ hlt rest rfl d false rps cfs ex
      | true =>
        cases hsub : collectAux s c (d ++ [nm]) ch true [] [] [] with
        | none =>
          rw [collectAux_cons_dir_rec_none _ _ _ _ _ _ _ _ _ hsub,
              collectAux_cons_dir_rec_none _ _ _ _ _ _ _ _ _ hsub]
          rfl
        | some sub =>
          obtain ⟨srps, scfs, sex⟩ := sub
          rw [collectAux_cons_dir_rec _ _ _ _ _ _ _ _ _ _ _ _ hsub,
              collectAux_cons_dir_rec _ _ _ _ _ _ _ _ _ _ _ _ hsub]
          rw [ih _ hlt rest rfl d true (rps ++ srps) (cfs ++ scfs) (ex ++ sex),
              ih _ hlt rest rfl d true ([] ++ srps) ([] ++ scfs) (ex ++ sex)]
          cases hF : collectAux s c d rest true [] [] (ex ++ sex) <;> simp [hF]

/-! ## Well-formedness of directory listings -/

theorem wfList_tail {e : Entry} {rest : List Entry} (h : wfList (e :: rest) = true) :
    wfList rest = true := by
  cases e with
  | file f =>
    unfold wfList at h ⊢
    rw [allWf] at h
    simp [List.nodup_cons] at h
    simp [h]
  | dir nm ch =>
    unfold wfList at h ⊢
    rw [allWf] at h
    simp [List.nodup_cons] at h
    simp [h]

theorem wfList_dir_children {nm : String} {ch rest : List Entry}
    (h : wfList (Entry.dir nm ch :: rest) = true) : wfList ch = true := by
  unfold wfList at h ⊢
  rw [allWf] at h
  simp at h
  simp [h]

theorem wfList_head_not_in_tail {e : Entry} {rest : List Entry}
    (h : wfList (e :: rest) = true) : ∀ e2 ∈ rest, e2.name ≠ e.name := by
  intro e2 he2 hname
  unfold wfList at h
  simp [List.nodup_cons] at h
  exact h.1.1 e2 he2 hname

theorem targets_append (a b : List RenamePair) :
    targets (a ++ b) = targets a ++ targets b := by
  simp [targets]

/-- Main planner invariant: started from empty pair accumulators, the loop
produces pairwise-distinct rename targets, and every target is either a
fresh basename directly in the processed directory or lies below one of the
listed subdirectories. -/
theorem collectAux_targets_inv (s : ReSearch) (c : Config) :
    ∀ (n : Nat) (es : List Entry), sizeOf es = n →
      ∀ (d : FsPath) (r : Bool) (ex0 : List String) (rps : List RenamePair)
        (cfs : List ConflictPair) (ex1 : List String),
        wfList es = true →
        collectAux s c d es r [] [] ex0 = some (rps, cfs, ex1) →
        (targets rps).Nodup ∧
        ∀ t ∈ targets rps,
          (∃ x, t = d ++ [x] ∧ x ∉ ex0) ∨
          (∃ nm ch, Entry.dir nm ch ∈ es ∧ ∃ q x, t = d ++ nm :: (q ++ [x])) := by
  intro n
  induction n using Nat.strong_induction_on with
  | _ n ih =>
    intro es hsz d r ex0 rps cfs ex1 hwf hrun
    match es with
    | [] =>
      rw [collectAux_nil] at hrun
      simp at hrun
      obtain ⟨h1, h2, h3⟩ := hrun
      subst h1
      simp [targets]
    | .file f :: rest =>
      have hlt : sizeOf rest < n := by subst hsz; simp
      have hwfr : wfList rest = true := wfList_tail hwf
      cases hc : candidateName s c f with
      | none =>
        rw [collectAux_cons_file_none _ _ _ _ _ _ _ _ _ hc] at hrun
        simp at hrun
      | some nf =>
        by_cases hmem : nf ∈ ex0
        · rw [collectAux_cons_file_conflict _ _ _ _ _ _ _ _ _ _ hc hmem] at hrun
          rw [collectAux_acc s c _ rest rfl] at hrun
          cases hF : collectAux s c d rest r [] [] ex0 with
          | none => rw [hF] at hrun; simp at hrun
          | some F =>
            obtain ⟨frps, fcfs, fex⟩ := F
            rw [hF] at hrun
            simp at hrun
            obtain ⟨h1, h2, h3⟩ := hrun
            subst h1
            obtain ⟨hN, hB⟩ := ih _ hlt rest rfl d r ex0 frps fcfs fex hwfr hF
            refine ⟨hN, fun t ht => ?_⟩
            rcases hB t ht with ⟨x, hx, hx0⟩ | ⟨nm2, ch2, hm2, q, x, hx⟩
            · exact Or.inl ⟨x, hx, hx0⟩
            · exact Or.inr ⟨nm2, ch2, List.mem_cons_of_mem _ hm2, q, x, hx⟩
        · rw [collectAux_cons_file_rename _ _ _ _ _ _ _ _ _ _ hc hmem] at hrun
          rw [collectAux_acc s c _ rest rfl] at hrun
          cases hF : collectAux s c d rest r [] [] (ex0 ++ [nf]) with
          | none => rw [hF] at hrun; simp at hrun
          | some F =>
            obtain ⟨frps, fcfs, fex⟩ := F
            rw [hF] at hrun
            simp at hrun
            obtain ⟨h1, h2, h3⟩ := hrun
            subst h1
            obtain ⟨hN, hB⟩ := ih _ hlt rest rfl d r (ex0 ++ [nf]) frps fcfs fex hwfr hF
            constructor
            · simp only [targets, List.map_cons, List.nodup_cons]
              refine ⟨?_, hN⟩
              intro hmem2
              rcases hB _ hmem2 with ⟨x, hx, hx0⟩ | ⟨nm2, ch2, hm2, q, x, hx⟩
              · have hxe : x = nf := by
                  have := List.append_cancel_left hx
                  simp at this
                  exact this.symm
                exact hx0 (hxe ▸ List.mem_append_right _ (List.mem_singleton.mpr rfl))
              · have := List.append_cancel_left hx
                simp at this
            · intro t ht
              simp only [targets, List.map_cons, List.mem_cons] at ht
              rcases ht with hteq | hmem2
              · exact Or.inl ⟨nf, hteq, hmem⟩
              · rcases hB t hmem2 with ⟨x, hx, hx0⟩ | ⟨nm2, ch2, hm2, q, x, hx⟩
                · exact Or.inl ⟨x, hx, fun h0 => hx0 (List.mem_append_left _ h0)⟩
                · exact Or.inr ⟨nm2, ch2, List.mem_cons_of_mem _ hm2, q, x, hx⟩
    | .dir nm ch :: rest =>
      have hltr : sizeOf rest < n := by subst hsz; simp
      have hltc : sizeOf ch < n := by subst hsz; simp; omega
      have hwfr : wfList rest = true := wfList_tail hwf
      cases r with
      | false =>
        rw [collectAux_cons_dir_nonrec] at hrun
        obtain ⟨hN, hB⟩ := ih _ hltr rest rfl d false ex0 rps cfs ex1 hwfr hrun
        refine ⟨hN, fun t ht => ?_⟩
        rcases hB t ht with ⟨x, hx, hx0⟩ | ⟨nm2, ch2, hm2, q, x, hx⟩
        · exact Or.inl ⟨x, hx, hx0⟩
        · exact Or.inr ⟨nm2, ch2, List.mem_cons_of_mem _ hm2, q, x, hx⟩
      | true =>
        cases hsub : collectAux s c (d ++ [nm]) ch true [] [] [] with
        | none =>
          rw [collectAux_cons_dir_rec_none _ _ _ _ _ _ _ _ _ hsub] at hrun
          simp at hrun
        | some sub =>
          obtain ⟨srps, scfs, sex⟩ := sub
          rw [collectAux_cons_dir_rec _ _ _ _ _ _ _ _ _ _ _ _ hsub] at hrun
          rw [collectAux_acc s c _ rest rfl] at hrun
          cases hF : collectAux s c d rest true [] [] (ex0 ++ sex) with
          | none => rw [hF] at hrun; simp at hrun
          | some F =>
            obtain ⟨frps, fcfs, fex⟩ := F
            rw [hF] at hrun
            simp at hrun
            obtain ⟨h1, h2, h3⟩ := hrun
            subst h1
            obtain ⟨sN, sB⟩ := ih _ hltc ch rfl (d ++ [nm]) true [] srps scfs sex
              (wfList_dir_children hwf) hsub
            obtain ⟨fN, fB⟩ := ih _ hltr rest rfl d true (ex0 ++ sex) frps fcfs fex hwfr hF
            have sForm : ∀ t ∈ targets srps, ∃ q x, t = d ++ nm :: (q ++ [x]) := by
              intro t ht
              rcases sB t ht with ⟨x, hx, _⟩ | ⟨nm2, ch2, _, q, x, hx⟩
              · exact ⟨[], x, by subst hx; simp⟩
              · exact ⟨nm2 :: q, x, by subst hx; simp⟩
            constructor
            · rw [targets_append]
              refine List.Nodup.append sN fN ?_
              intro t ht hmem2
              obtain ⟨q1, x1, ht1⟩ := sForm t ht
              rcases fB t hmem2 with ⟨x2, hx2, _⟩ | ⟨nm2, ch2, hm2, q2, x2, hx2⟩
              · rw [ht1] at hx2
                have := List.append_cancel_left hx2
                simp at this
              · have hne : nm2 ≠ nm :=
                  wfList_head_not_in_tail hwf (Entry.dir nm2 ch2) hm2
                rw [ht1] at hx2
                have := List.append_cancel_left hx2
                simp at this
                exact hne this.1.symm
            · intro t ht
              rw [targets_append, List.mem_append] at ht
              rcases ht with hts | htf
              · obtain ⟨q1, x1, ht1⟩ := sForm t hts
                exact Or.inr ⟨nm, ch, List.mem_cons_self _ _, q1, x1, ht1⟩
              · rcases fB t htf with ⟨x, hx, hx0⟩ | ⟨nm2, ch2, hm2, q, x, hx⟩
                · exact Or.inl ⟨x, hx, fun h0 => hx0 (List.mem_append_left _ h0)⟩
                · exact Or.inr ⟨nm2, ch2, List.mem_cons_of_mem _ hm2, q, x, hx⟩

/-! ## Concrete oracles and configurations for tests -/

/-- Test oracle: no pattern ever matches anything. -/
def searchNone : ReSearch := fun _ _ => none

/-- Test oracle for the two-file scenario: pattern "Y" captures year "2023",
pattern "M" captures month "3", patterns "E" and "P" match (their captures
are never read). -/
def searchEx : ReSearch := fun pat _ =>
  if pat = "Y" then some ⟨some "2023"⟩
  else if pat = "M" then some ⟨some "3"⟩
  else if pat = "E" then some ⟨some "exam"⟩
  else if pat = "P" then some ⟨some "pdf"⟩
  else none

/-- Configuration for the two-file scenario: both sample files classify to
category "examA" and file type "pdf". -/
def configEx : Config :=
  { year_regex := some "Y", month_regex := some "M",
    exam_type_rules := [⟨"E", "examA"⟩], file_type_rules := [⟨"P", "pdf"⟩] }

/-- Test oracle: every pattern matches, but the match has no capture
group, so `.group(1)` raises. -/
def searchNoGroup : ReSearch := fun _ _ => some ⟨none⟩

/-! ## The claims -/

/-- C1 counterexample: with no rules configured, every candidate name equals
the original filename. On the tree `[dir "A" [file "f"], dir "B" [file "f"]]`
both files are accepted into the rename plan with the same candidate base
name "f" and the conflict list stays empty, because each subdirectory's
recursive call starts from a fresh empty claimed-name set. This refutes the
claim that a base name accepted in one subdirectory cannot be accepted in a
sibling subdirectory of the same top-level invocation. -/
theorem C1_counterexample :
    collect_rename_pairs searchNone {} []
        [Entry.dir "A" [Entry.file "f"], Entry.dir "B" [Entry.file "f"]] true =
      some ([(["A", "f"], ["A", "f"]), (["B", "f"], ["B", "f"])], [], ["f", "f"]) ∧
    (([(["A", "f"], ["A", "f"]), (["B", "f"], ["B", "f"])] : List RenamePair).map
      (fun p => basename p.2)) = ["f", "f"] :=
  ⟨by simp [collect_rename_pairs, collectAux, _process_file, extract_file_info,
      generate_new_filename, splitext, lastDotIdx, basename, searchNone],
   by decide⟩

/-- C1 (amended): a subdirectory's claimed names are merged into the
parent's claimed set when its recursive call returns, and are therefore
visible to entries processed later at the parent level: a parent-level file
processed after the subdirectory whose candidate name was claimed inside it
is reported as a conflict. (Sibling subdirectories are not protected: each
recursive call starts from an empty claimed set.) -/
theorem C1_sibling_merge (s : ReSearch) (c : Config) (d : FsPath) (nm : String)
    (ch : List Entry) (f : String) (rest : List Entry)
    (rps : List RenamePair) (cfs : List ConflictPair) (ex : List String)
    (srps : List RenamePair) (scfs : List ConflictPair) (sex : List String)
    (nf : String)
    (hsub : collectAux s c (d ++ [nm]) ch true [] [] [] = some (srps, scfs, sex))
    (hcand : candidateName s c f = some nf) (hmem : nf ∈ sex) :
    collectAux s c d (Entry.dir nm ch :: Entry.file f :: rest) true rps cfs ex =
      collectAux s c d rest true (rps ++ srps) ((cfs ++ scfs) ++ [(f, nf)])
        (ex ++ sex) := by
  rw [collectAux_cons_dir_rec _ _ _ _ _ _ _ _ _ _ _ _ hsub]
  rw [collectAux_cons_file_conflict _ _ _ _ _ _ _ _ _ _ hcand
    (List.mem_append_right _ hmem)]

theorem C1_sibling_merge_witness :
    collectAux searchNone {} ["A"] [Entry.file "f"] true [] [] [] =
        some ([(["A", "f"], ["A", "f"])], [], ["f"]) ∧
    candidateName searchNone {} "f" = some "f" ∧
    "f" ∈ ["f"] ∧
    collectAux searchNone {} [] [Entry.dir "A" [Entry.file "f"], Entry.file "f"]
        true [] [] [] =
      collectAux searchNone {} [] [] true ([] ++ [(["A", "f"], ["A", "f"])])
        (([] ++ []) ++ [("f", "f")]) ([] ++ ["f"]) :=
  ⟨by simp [collectAux, _process_file, extract_file_info, generate_new_filename,
      splitext, lastDotIdx, basename, searchNone],
   by decide, by decide,
   C1_sibling_merge searchNone {} [] "A" [Entry.file "f"] "f" [] [] [] []
     [(["A", "f"], ["A", "f"])] [] ["f"] "f"
     (by simp [collectAux, _process_file, extract_file_info, generate_new_filename,
       splitext, lastDotIdx, basename, searchNone])
     (by decide) (by decide)⟩

/-- C2: within one top-level invocation of the planner on a well-formed
directory tree (sibling names distinct, as a real filesystem guarantees),
no two `RenamePair`s anywhere in the returned result share the same full
target path. -/
theorem C2_targets_nodup (s : ReSearch) (c : Config) (d : FsPath)
    (es : List Entry) (r : Bool) (rps : List RenamePair)
    (cfs : List ConflictPair) (ex : List String)
    (hwf : wfList es = true)
    (hrun : collect_rename_pairs s c d es r = some (rps, cfs, ex)) :
    (rps.map Prod.snd).Nodup := by
  unfold collect_rename_pairs at hrun
  have h := (collectAux_targets_inv s c (sizeOf es) es rfl d r [] rps cfs ex hwf hrun).1
  simpa [targets] using h

theorem C2_targets_nodup_witness :
    wfList [Entry.file "a", Entry.dir "A" [Entry.file "a"]] = true ∧
    (([(["a"], ["a"]), (["A", "a"], ["A", "a"])] : List RenamePair).map
      Prod.snd).Nodup :=
  ⟨by simp [wfList, allWf, Entry.name],
   C2_targets_nodup searchNone {} [] [Entry.file "a", Entry.dir "A" [Entry.file "a"]]
     true [(["a"], ["a"]), (["A", "a"], ["A", "a"])] [] ["a", "a"]
     (by simp [wfList, allWf, Entry.name])
     (by simp [collect_rename_pairs, collectAux, _process_file, extract_file_info,
       generate_new_filename, splitext, lastDotIdx, basename, searchNone])⟩

/-- C3: a regular file's candidate name is tested against the claimed-name
set as accumulated so far at its level; if it is not a member, a rename pair
with the same parent directory is emitted and the candidate base name is
claimed, and if it is a member, a conflict pair (original name, candidate
name) is emitted and the claimed set is unchanged. -/
theorem C3_file_step (s : ReSearch) (c : Config) (d : FsPath) (f : String)
    (rest : List Entry) (r : Bool) (rps : List RenamePair)
    (cfs : List ConflictPair) (ex : List String) (nf : String)
    (hcand : candidateName s c f = some nf) :
    collectAux s c d (Entry.file f :: rest) r rps cfs ex =
      if nf ∈ ex then
        collectAux s c d rest r rps (cfs ++ [(f, nf)]) ex
      else
        collectAux s c d rest r (rps ++ [(d ++ [f], d ++ [nf])]) cfs
          (ex ++ [nf]) := by
  by_cases hmem : nf ∈ ex
  · rw [if_pos hmem]
    exact collectAux_cons_file_conflict _ _ _ _ _ _ _ _ _ _ hcand hmem
  · rw [if_neg hmem]
    exact collectAux_cons_file_rename _ _ _ _ _ _ _ _ _ _ hcand hmem

theorem C3_file_step_witness :
    candidateName searchEx configEx "2023_03_examB.pdf" =
        some "2023.03.examA.pdf.pdf" ∧
    collectAux searchEx configEx [] [Entry.file "2023_03_examB.pdf"] false
        [(["2023_03_examA.pdf"], ["2023.03.examA.pdf.pdf"])] []
        ["2023.03.examA.pdf.pdf"] =
      if "2023.03.examA.pdf.pdf" ∈ ["2023.03.examA.pdf.pdf"] then
        collectAux searchEx configEx [] [] false
          [(["2023_03_examA.pdf"], ["2023.03.examA.pdf.pdf"])]
          ([] ++ [("2023_03_examB.pdf", "2023.03.examA.pdf.pdf")])
          ["2023.03.examA.pdf.pdf"]
      else
        collectAux searchEx configEx [] [] false
          ([(["2023_03_examA.pdf"], ["2023.03.examA.pdf.pdf"])]
            ++ [([ "2023_03_examB.pdf" ], ["2023.03.examA.pdf.pdf"])]) []
          (["2023.03.examA.pdf.pdf"] ++ ["2023.03.examA.pdf.pdf"]) :=
  ⟨by decide,
   C3_file_step searchEx configEx [] "2023_03_examB.pdf" [] false
     [(["2023_03_examA.pdf"], ["2023.03.examA.pdf.pdf"])] []
     ["2023.03.examA.pdf.pdf"] "2023.03.examA.pdf.pdf" (by decide)⟩

/-- C4: `_process_file` yields, for a regular file that is processed without
error, exactly one of a rename pair or a conflict pair (never both, never
neither), and for a directory it yields neither, returning before any
classification. -/
theorem C4_exactly_one (s : ReSearch) (c : Config) (d : FsPath) :
    (∀ (f : String) (ex : List String)
        (rc : Option RenamePair × Option ConflictPair),
      _process_file s c d (Entry.file f) ex = some rc →
      (rc.1.isSome ∧ rc.2 = none) ∨ (rc.1 = none ∧ rc.2.isSome)) ∧
    (∀ (nm : String) (ch : List Entry) (ex : List String),
      _process_file s c d (Entry.dir nm ch) ex = some (none, none)) := by
  constructor
  · intro f ex rc h
    cases hc : candidateName s c f with
    | none =>
      rw [_process_file_eq_none _ _ _ _ _ hc] at h
      simp at h
    | some nf =>
      by_cases hmem : nf ∈ ex
      · rw [_process_file_conflict _ _ _ _ _ _ hc hmem] at h
        simp at h
        rw [← h]
        simp
      · rw [_process_file_rename _ _ _ _ _ _ hc hmem] at h
        simp at h
        rw [← h]
        simp
  · intro nm ch ex
    rfl

theorem C4_exactly_one_witness :
    ((some ((["a"], ["a"]) : RenamePair)).isSome ∧
        (none : Option ConflictPair) = none) ∨
      ((some ((["a"], ["a"]) : RenamePair)) = none ∧
        (none : Option ConflictPair).isSome) :=
  (C4_exactly_one searchNone {} []).1 "a" []
    (some (["a"], ["a"]), none) (by decide)

/-- C5: when no year is extracted, the candidate name is the original
filename unchanged, and the planner still emits the resulting no-op rename
pair (source equal to target) instead of filtering it out. -/
theorem C5_noop_rename (s : ReSearch) (c : Config) :
    (∀ (filename : String) (mm : Option ReMatch) (et ft : String),
      generate_new_filename filename none mm et ft = some filename) ∧
    (∀ (d : FsPath) (f : String) (rest : List Entry) (r : Bool)
        (rps : List RenamePair) (cfs : List ConflictPair) (ex : List String),
      (extract_file_info s f c).1 = none → f ∉ ex →
      collectAux s c d (Entry.file f :: rest) r rps cfs ex =
        collectAux s c d rest r (rps ++ [(d ++ [f], d ++ [f])]) cfs
          (ex ++ [f])) := by
  constructor
  · intro filename mm et ft
    cases mm <;> rfl
  · intro d f rest r rps cfs ex hyr hmem
    have hc : candidateName s c f = some f := by
      have hdef : candidateName s c f =
          generate_new_filename f (extract_file_info s f c).1
            (extract_file_info s f c).2.1 (extract_file_info s f c).2.2.1
            (extract_file_info s f c).2.2.2 := rfl
      rw [hdef, hyr]
      cases (extract_file_info s f c).2.1 <;> rfl
    exact collectAux_cons_file_rename _ _ _ _ _ _ _ _ _ _ hc hmem

theorem C5_noop_rename_witness :
    (extract_file_info searchNone "a.pdf" {}).1 = none ∧
    "a.pdf" ∉ ([] : List String) ∧
    collectAux searchNone {} [] [Entry.file "a.pdf"] false [] [] [] =
      collectAux searchNone {} [] [] false
        ([] ++ [(([] : FsPath) ++ ["a.pdf"], ([] : FsPath) ++ ["a.pdf"])]) []
        ([] ++ ["a.pdf"]) :=
  ⟨by decide, by decide,
   (C5_noop_rename searchNone {}).2 [] "a.pdf" [] false [] [] []
     (by decide) (by decide)⟩

/-- C6: with a year and a month both extracted, the candidate name is
"{year}.{month}.{category}.{fileType}{extension}", the month zero-padded to
width 2 and the extension taken verbatim from the original filename; at
year "2023", month "3" and both labels at the sentinel, the result is
"2023.03.未知.未知{ext}". -/
theorem C6_year_month_format :
    (∀ (filename year m exam_type file_type : String),
      generate_new_filename filename (some ⟨some year⟩) (some ⟨some m⟩)
          exam_type file_type =
        some (year ++ "." ++ zfill m 2 ++ "." ++ exam_type ++ "." ++ file_type
          ++ (splitext filename).2)) ∧
    (∀ filename : String,
      generate_new_filename filename (some ⟨some "2023"⟩) (some ⟨some "3"⟩)
          "未知" "未知" =
        some ("2023.03.未知.未知" ++ (splitext filename).2)) := by
  constructor
  · intro filename year m et ft
    rfl
  · intro filename
    show some ("2023" ++ "." ++ zfill "3" 2 ++ "." ++ "未知" ++ "." ++ "未知"
      ++ (splitext filename).2) = _
    congr 1

theorem scanRules_first (s : ReSearch) (f : String) :
    ∀ (pre : List Rule) (rule : Rule) (post : List Rule),
      (∀ r2 ∈ pre, s r2.pattern f = none) → (s rule.pattern f).isSome →
      scanRules s f (pre ++ rule :: post) = rule.type := by
  intro pre
  induction pre with
  | nil =>
    intro rule post _ hm
    simp only [List.nil_append, scanRules, hm, if_pos]
  | cons a t ihp =>
    intro rule post hpre hm
    have ha : s a.pattern f = none := hpre a (List.mem_cons_self a t)
    simp only [List.cons_append, scanRules, ha, Option.isSome_none,
      Bool.false_eq_true, if_false]
    exact ihp rule post (fun r2 hr2 => hpre r2 (List.mem_cons_of_mem _ hr2)) hm

theorem scanRules_unknown (s : ReSearch) (f : String) :
    ∀ rules : List Rule, (∀ r2 ∈ rules, s r2.pattern f = none) →
      scanRules s f rules = "未知" := by
  intro rules
  induction rules with
  | nil => intro _; rfl
  | cons a t iht =>
    intro h
    have ha : s a.pattern f = none := h a (List.mem_cons_self a t)
    simp only [scanRules, ha, Option.isSome_none, Bool.false_eq_true, if_false]
    exact iht (fun r2 hr2 => h r2 (List.mem_cons_of_mem _ hr2))

/-- C7: the category and file-type labels are each resolved by scanning the
configured rule list in order and taking the label of the first rule whose
pattern matches; when no rule matches, the label is the sentinel "未知". -/
theorem C7_first_match (s : ReSearch) (c : Config) (f : String) :
    ((∀ (pre : List Rule) (rule : Rule) (post : List Rule),
        c.exam_type_rules = pre ++ rule :: post →
        (∀ r2 ∈ pre, s r2.pattern f = none) → (s rule.pattern f).isSome →
        (extract_file_info s f c).2.2.1 = rule.type) ∧
      ((∀ r2 ∈ c.exam_type_rules, s r2.pattern f = none) →
        (extract_file_info s f c).2.2.1 = "未知")) ∧
    ((∀ (pre : List Rule) (rule : Rule) (post : List Rule),
        c.file_type_rules = pre ++ rule :: post →
        (∀ r2 ∈ pre, s r2.pattern f = none) → (s rule.pattern f).isSome →
        (extract_file_info s f c).2.2.2 = rule.type) ∧
      ((∀ r2 ∈ c.file_type_rules, s r2.pattern f = none) →
        (extract_file_info s f c).2.2.2 = "未知")) := by
  have he : (extract_file_info s f c).2.2.1 = scanRules s f c.exam_type_rules := rfl
  have hf : (extract_file_info s f c).2.2.2 = scanRules s f c.file_type_rules := rfl
  refine ⟨⟨?_, ?_⟩, ?_, ?_⟩
  · intro pre rule post hsplit hpre hm
    rw [he, hsplit]
    exact scanRules_first s f pre rule post hpre hm
  · intro hnone
    rw [he]
    exact scanRules_unknown s f _ hnone
  · intro pre rule post hsplit hpre hm
    rw [hf, hsplit]
    exact scanRules_first s f pre rule post hpre hm
  · intro hnone
    rw [hf]
    exact scanRules_unknown s f _ hnone

theorem C7_first_match_witness :
    configEx.exam_type_rules = [] ++ (⟨"E", "examA"⟩ : Rule) :: [] ∧
    (searchEx (Rule.pattern ⟨"E", "examA"⟩) "x").isSome = true ∧
    (extract_file_info searchEx "x" configEx).2.2.1 = Rule.type ⟨"E", "examA"⟩ :=
  ⟨rfl, by decide,
   (C7_first_match searchEx configEx "x").1.1 [] ⟨"E", "examA"⟩ [] rfl
     (by intro r2 hr2; cases hr2) (by decide)⟩

theorem collectAux_nonrec_filter (s : ReSearch) (c : Config) :
    ∀ (es : List Entry) (d : FsPath) (rps : List RenamePair)
      (cfs : List ConflictPair) (ex : List String),
      collectAux s c d es false rps cfs ex =
        collectAux s c d (es.filter Entry.isFile) false rps cfs ex := by
  intro es
  induction es with
  | nil => intro d rps cfs ex; rfl
  | cons e rest ihe =>
    intro d rps cfs ex
    cases e with
    | dir nm ch =>
      rw [collectAux_cons_dir_nonrec]
      have hfil : (Entry.dir nm ch :: rest).filter Entry.isFile =
          rest.filter Entry.isFile := by
        simp [List.filter, Entry.isFile]
      rw [hfil]
      exact ihe d rps cfs ex
    | file f =>
      have hfil : (Entry.file f :: rest).filter Entry.isFile =
          Entry.file f :: rest.filter Entry.isFile := by
        simp [List.filter, Entry.isFile]
      rw [hfil]
      cases hc : candidateName s c f with
      | none =>
        rw [collectAux_cons_file_none _ _ _ _ _ _ _ _ _ hc,
            collectAux_cons_file_none _ _ _ _ _ _ _ _ _ hc]
      | some nf =>
        by_cases hmem : nf ∈ ex
        · rw [collectAux_cons_file_conflict _ _ _ _ _ _ _ _ _ _ hc hmem,
              collectAux_cons_file_conflict _ _ _ _ _ _ _ _ _ _ hc hmem]
          exact ihe d rps (cfs ++ [(f, nf)]) ex
        · rw [collectAux_cons_file_rename _ _ _ _ _ _ _ _ _ _ hc hmem,
              collectAux_cons_file_rename _ _ _ _ _ _ _ _ _ _ hc hmem]
          exact ihe d (rps ++ [(d ++ [f], d ++ [nf])]) cfs (ex ++ [nf])

/-- C8: with the recursive flag false, subdirectories are skipped entirely:
the planner's result on a listing equals its result on the listing with all
directory entries removed, so nothing below a subdirectory is renamed or
reported. -/
theorem C8_nonrecursive_skips_subdirs (s : ReSearch) (c : Config) (d : FsPath)
    (es : List Entry) :
    collect_rename_pairs s c d es false =
      collect_rename_pairs s c d (es.filter Entry.isFile) false := by
  unfold collect_rename_pairs
  exact collectAux_nonrec_filter s c es d [] [] []

/-- C9: a missing or malformed configuration file is non-fatal: loading
returns the empty configuration, under which no year and no month are ever
extracted from any filename and both labels are the sentinel "未知". -/
theorem C9_config_failure (src : ConfigSource) (s : ReSearch) (f : String)
    (h : src = ConfigSource.missing ∨ src = ConfigSource.malformed) :
    load_config src =
      { year_regex := none, month_regex := none,
        exam_type_rules := [], file_type_rules := [] } ∧
    extract_file_info s f (load_config src) = (none, none, "未知", "未知") := by
  rcases h with h | h <;> subst h <;> exact ⟨rfl, rfl⟩

theorem C9_config_failure_witness :
    load_config ConfigSource.missing =
      { year_regex := none, month_regex := none,
        exam_type_rules := [], file_type_rules := [] } ∧
    extract_file_info searchNone "a.pdf" (load_config ConfigSource.missing) =
      (none, none, "未知", "未知") :=
  C9_config_failure ConfigSource.missing searchNone "a.pdf" (Or.inl rfl)

/-- C10: `generate_new_filename` raises (returns `none`) exactly when the
year match lacks a first capture group, or the year capture succeeds and the
month match lacks a first capture group; in particular it returns a string
whenever every match used has a capture group, and an oracle whose matches
carry no group drives it into the error branch. -/
theorem C10_group1_totality :
    (∀ (filename : String) (ym mm : Option ReMatch) (et ft : String),
      (generate_new_filename filename ym mm et ft = none ↔
        (∃ m, ym = some m ∧ m.group1 = none) ∨
        (∃ m y m2, ym = some m ∧ m.group1 = some y ∧ mm = some m2 ∧
          m2.group1 = none))) ∧
    (extract_file_info searchNoGroup "a.txt"
        { year_regex := some "y", month_regex := none,
          exam_type_rules := [], file_type_rules := [] }).1 = some ⟨none⟩ ∧
    generate_new_filename "a.txt" (some ⟨none⟩) none "未知" "未知" = none := by
  refine ⟨?_, by decide, by decide⟩
  intro filename ym mm et ft
  cases ym with
  | none => simp [generate_new_filename]
  | some m =>
    cases hg : m.group1 with
    | none => simp [generate_new_filename, hg]
    | some y =>
      cases mm with
      | none => simp [generate_new_filename, hg]
      | some m2 =>
        cases hg2 : m2.group1 with
        | none => simp [generate_new_filename, hg, hg2]
        | some mo => simp [generate_new_filename, hg, hg2]
